import Mathlib

/-!
Verification of the oxen static-site generator (Go) against its
natural-language specification.

The Go source is shallowly embedded: Go strings become `List Nat` (byte
sequences) or `List Char` (rune sequences) depending on how the source
manipulates them, Go `int` counters become `Int`, `time.Time` values become
`Int` timestamps, and filesystem effects are passed in explicitly.  Each
definition mirrors one Go function of the repository; a few definitions are
modelled from the specification where the corresponding revision of the Go
code is not part of the source tree (their doc comments say so).
-/

namespace Oxen

/-- Embeds `isHexChar` (generator/utils.go): ASCII hex digit test on a byte. -/
def isHexChar (b : Nat) : Bool :=
  (48 ≤ b && b ≤ 57) || (97 ≤ b && b ≤ 102) || (65 ≤ b && b ≤ 70)

/-- UTF-8 continuation byte test (0x80..0xBF), used by the rune decoder. -/
def isCont (b : Nat) : Bool := 128 ≤ b && b ≤ 191

/-- Decode the first rune of a Go string, as Go's `for range` loop does
(standard UTF-8; overlong forms, surrogates and invalid bytes yield the
replacement rune U+FFFD with one byte consumed).  Returns the rune and the
number of additional bytes consumed after the lead byte `b0`. -/
def decodeHead (b0 : Nat) (rest : List Nat) : Nat × Nat :=
  if b0 < 128 then (b0, 0)
  else if b0 < 194 then (65533, 0)
  else if b0 ≤ 223 then
    match rest with
    | b1 :: _ =>
        if isCont b1 then ((b0 % 32) * 64 + b1 % 64, 1) else (65533, 0)
    | [] => (65533, 0)
  else if b0 ≤ 239 then
    match rest with
    | b1 :: b2 :: _ =>
        let lo := if b0 = 224 then 160 else 128
        let hi := if b0 = 237 then 159 else 191
        if lo ≤ b1 && b1 ≤ hi && isCont b2 then
          ((b0 % 16) * 4096 + (b1 % 64) * 64 + b2 % 64, 2)
        else (65533, 0)
    | _ => (65533, 0)
  else if b0 ≤ 244 then
    match rest with
    | b1 :: b2 :: b3 :: _ =>
        let lo := if b0 = 240 then 144 else 128
        let hi := if b0 = 244 then 143 else 191
        if lo ≤ b1 && b1 ≤ hi && isCont b2 && isCont b3 then
          ((b0 % 8) * 262144 + (b1 % 64) * 4096 + (b2 % 64) * 64 + b3 % 64, 3)
        else (65533, 0)
    | _ => (65533, 0)
  else (65533, 0)

/-- Helper for `goRunes`: structural recursion on a fuel bound (each loop
iteration consumes at least the lead byte, so `l.length` fuel suffices). -/
def goRunesFuel : Nat → List Nat → List Nat
  | 0, _ => []
  | _, [] => []
  | fuel + 1, b0 :: rest =>
      (decodeHead b0 rest).1 :: goRunesFuel fuel (rest.drop (decodeHead b0 rest).2)

/-- The rune sequence a Go `for _, c := range s` loop observes on the byte
sequence `l`. -/
def goRunes (l : List Nat) : List Nat := goRunesFuel l.length l

theorem goRunesFuel_ascii (fuel : Nat) (l : List Nat) (hf : l.length ≤ fuel)
    (h : ∀ b ∈ l, b < 128) : goRunesFuel fuel l = l := by
  induction fuel generalizing l with
  | zero =>
      cases l with
      | nil => rfl
      | cons b0 rest => simp at hf
  | succ fuel ih =>
      cases l with
      | nil => rfl
      | cons b0 rest =>
          have hb0 : b0 < 128 := h b0 (by simp)
          have hd : decodeHead b0 rest = (b0, 0) := by
            unfold decodeHead; simp [hb0]
          simp only [goRunesFuel, hd, List.drop_zero]
          rw [ih rest (by simpa using hf) (fun b hb => h b (by simp [hb]))]

/-- On pure-ASCII input the Go rune loop sees exactly the bytes. -/
theorem goRunes_ascii (l : List Nat) (h : ∀ b ∈ l, b < 128) :
    goRunes l = l :=
  goRunesFuel_ascii l.length l le_rfl h

/-- Embeds `isValidUUID` (generator/utils.go lines 49-66): byte length must
be 36, bytes 8/13/18/23 must be hyphens, and every rune seen by the range
loop must be a hyphen or (after Go's `byte(c)` truncation) a hex digit. -/
def isValidUUID (s : List Nat) : Bool :=
  if s.length ≠ 36 then false
  else if ¬(s.getD 8 0 = 45 ∧ s.getD 13 0 = 45 ∧ s.getD 18 0 = 45 ∧ s.getD 23 0 = 45) then false
  else (goRunes s).all (fun c => c = 45 || isHexChar (c % 256))

/-- Nat sequence of an ASCII Lean string (used to feed string literals to
the byte-level embeddings). -/
def asciiNats (s : String) : List Nat := s.toList.map Char.toNat

theorem asciiNats_lt (s : String) (h : ∀ c ∈ s.toList, c.toNat < 128) :
    ∀ b ∈ asciiNats s, b < 128 := by
  intro b hb
  simp only [asciiNats, List.mem_map] at hb
  obtain ⟨c, hc, rfl⟩ := hb
  exact h c hc

example : isValidUUID (asciiNats "550e8400-e29b-41d4-a716-446655440000") = true := by decide
example : isValidUUID (asciiNats "00000000-0000-0000-0000-000000000000") = true := by decide
example : isValidUUID (asciiNats "") = false := by decide
example : isValidUUID (asciiNats "550g8400-e29b-41d4-a716-446655440000") = false := by decide
example : isValidUUID (asciiNats "-0000000-0000-0000-0000-000000000000") = true := by decide

/-- The validity predicate exactly as the claim states it: 36 characters,
hyphens at offsets 8/13/18/23, and a hex digit at every other offset.
Written from the specification's words, for comparison with `isValidUUID`. -/
def claimValidUUID (s : List Nat) : Bool :=
  s.length = 36 &&
  (s.getD 8 0 = 45 && s.getD 13 0 = 45 && s.getD 18 0 = 45 && s.getD 23 0 = 45) &&
  (List.range 36).all
    (fun i => i = 8 || i = 13 || i = 18 || i = 23 || isHexChar (s.getD i 0))

/-- A 36-byte input whose first character is a fifth hyphen, at a non-hyphen
offset: `isValidUUID` accepts it while the claim demands rejection. -/
def extraHyphenInput : List Nat :=
  asciiNats "-0000000-0000-0000-0000-000000000000"

/-- A 36-byte input starting with the two-byte character Ł (U+0141): Go's
range loop decodes it to rune 0x141 and `byte(c)` truncates that to 0x41
(letter A), so `isValidUUID` accepts although the character is not hex. -/
def truncatedRuneInput : List Nat :=
  197 :: 129 :: asciiNats "000000-0000-0000-0000-000000000000"

/-- C3 counterexample: `isValidUUID` does not implement the claimed
characterization — it accepts a string with a hyphen at a non-hyphen offset,
and a string whose leading character Ł is not a hexadecimal digit. -/
theorem isValidUUID_claim_counterexample :
    isValidUUID extraHyphenInput = true ∧ claimValidUUID extraHyphenInput = false ∧
    isValidUUID truncatedRuneInput = true ∧ claimValidUUID truncatedRuneInput = false := by
  decide

/-- C3 (amended): on ASCII input the validator returns true exactly when the
input is 36 bytes long, has hyphens at offsets 8, 13, 18 and 23, and every
character is a hexadecimal digit or a hyphen; in particular it accepts the
all-zero and all-f values and rejects the empty string, over- and
under-length strings, wrong hyphen placement, and any character that is
neither hex nor hyphen. -/
theorem isValidUUID_amended_spec :
    (isValidUUID (asciiNats "00000000-0000-0000-0000-000000000000") = true ∧
     isValidUUID (asciiNats "ffffffff-ffff-ffff-ffff-ffffffffffff") = true ∧
     isValidUUID (asciiNats "") = false ∧
     isValidUUID (asciiNats "00000000-0000-0000-0000-00000000000") = false ∧
     isValidUUID (asciiNats "00000000-0000-0000-0000-0000000000000") = false ∧
     isValidUUID (asciiNats "000000000-0000-0000-000000000000-000") = false ∧
     isValidUUID (asciiNats "0000000g-0000-0000-0000-000000000000") = false) ∧
    ∀ s : List Nat, (∀ b ∈ s, b < 128) →
      (isValidUUID s = true ↔
        (s.length = 36 ∧
         s.getD 8 0 = 45 ∧ s.getD 13 0 = 45 ∧ s.getD 18 0 = 45 ∧ s.getD 23 0 = 45 ∧
         ∀ b ∈ s, b = 45 ∨ isHexChar b = true)) := by
  refine ⟨by decide, ?_⟩
  intro s hascii
  have hr : goRunes s = s := goRunes_ascii s hascii
  unfold isValidUUID
  by_cases h36 : s.length = 36
  · by_cases hhyph : s.getD 8 0 = 45 ∧ s.getD 13 0 = 45 ∧ s.getD 18 0 = 45 ∧ s.getD 23 0 = 45
    · rw [if_neg (by simp [h36]), if_neg (not_not_intro hhyph), hr, List.all_eq_true]
      constructor
      · intro hall
        refine ⟨h36, hhyph.1, hhyph.2.1, hhyph.2.2.1, hhyph.2.2.2, ?_⟩
        intro b hb
        have hx := hall b hb
        have hmod : b % 256 = b := Nat.mod_eq_of_lt (by have := hascii b hb; omega)
        rw [hmod] at hx
        simpa using hx
      · rintro ⟨-, -, -, -, -, hall⟩ b hb
        have hmod : b % 256 = b := Nat.mod_eq_of_lt (by have := hascii b hb; omega)
        rw [hmod]
        simpa using hall b hb
    · rw [if_neg (by simp [h36]), if_pos hhyph]
      refine ⟨fun h => absurd h (by simp), ?_⟩
      rintro ⟨-, h8, h13, h18, h23, -⟩
      exact absurd ⟨h8, h13, h18, h23⟩ hhyph
  · rw [if_pos (by simp [h36])]
    refine ⟨fun h => absurd h (by simp), ?_⟩
    rintro ⟨h, -⟩
    exact absurd h h36

/-- C3 witness: the amended characterization evaluated at a concrete valid
identifier. -/
theorem isValidUUID_amended_spec_witness :
    isValidUUID (asciiNats "550e8400-e29b-41d4-a716-446655440000") = true ↔
      ((asciiNats "550e8400-e29b-41d4-a716-446655440000").length = 36 ∧
       (asciiNats "550e8400-e29b-41d4-a716-446655440000").getD 8 0 = 45 ∧
       (asciiNats "550e8400-e29b-41d4-a716-446655440000").getD 13 0 = 45 ∧
       (asciiNats "550e8400-e29b-41d4-a716-446655440000").getD 18 0 = 45 ∧
       (asciiNats "550e8400-e29b-41d4-a716-446655440000").getD 23 0 = 45 ∧
       ∀ b ∈ asciiNats "550e8400-e29b-41d4-a716-446655440000", b = 45 ∨ isHexChar b = true) :=
  isValidUUID_amended_spec.2 (asciiNats "550e8400-e29b-41d4-a716-446655440000") (by decide)

/-- Embeds `GenerationResult` (generator/types.go lines 78-87).  Go `int`
counters become `Int`; the unexported `startTime time.Time` field becomes an
`Int` timestamp whose zero value models Go's zero `time.Time`. -/
structure GenerationResult where
  totalFilesScanned : Int
  filesWithUUIDs : Int
  filesGenerated : Int
  filesSkipped : Int
  tagPagesGenerated : Int
  staticFilesCopied : Int
  errors : Int
  startTime : Int
deriving DecidableEq

/-- The all-zero `GenerationResult` (Go's zero value of the struct). -/
def GenerationResult.zero : GenerationResult := ⟨0, 0, 0, 0, 0, 0, 0, 0⟩

/-- Embeds `GenerationResult.Add` (generator/types.go lines 89-99): the Go
method returns a struct literal listing only the seven counter fields, so the
unexported `startTime` of the result is the zero value. -/
def GenerationResult.Add (r other : GenerationResult) : GenerationResult where
  totalFilesScanned := r.totalFilesScanned + other.totalFilesScanned
  filesWithUUIDs := r.filesWithUUIDs + other.filesWithUUIDs
  filesGenerated := r.filesGenerated + other.filesGenerated
  filesSkipped := r.filesSkipped + other.filesSkipped
  tagPagesGenerated := r.tagPagesGenerated + other.tagPagesGenerated
  staticFilesCopied := r.staticFilesCopied + other.staticFilesCopied
  errors := r.errors + other.errors
  startTime := 0

theorem GenerationResult.Add_assoc (a b c : GenerationResult) :
    (a.Add b).Add c = a.Add (b.Add c) := by
  cases a; cases b; cases c
  simp [GenerationResult.Add, add_assoc]

theorem GenerationResult.Add_comm (a b : GenerationResult) :
    a.Add b = b.Add a := by
  cases a; cases b
  simp [GenerationResult.Add, add_comm]

theorem GenerationResult.foldr_Add_perm {l l' : List GenerationResult}
    (h : l.Perm l') :
    l.foldr GenerationResult.Add GenerationResult.zero =
      l'.foldr GenerationResult.Add GenerationResult.zero := by
  induction h with
  | nil => rfl
  | cons x _ ih => simp only [List.foldr_cons, ih]
  | swap x y l =>
      simp only [List.foldr_cons]
      rw [← GenerationResult.Add_assoc, ← GenerationResult.Add_assoc,
        GenerationResult.Add_comm y x]
  | trans _ _ ih1 ih2 => rw [ih1, ih2]

/-- A result whose (unexported) start-time field is nonzero. -/
def timedResult : GenerationResult := { GenerationResult.zero with startTime := 1 }

/-- C8 counterexample: the all-zero result is not a two-sided identity for
`Add` on every result — `Add` rebuilds the struct listing only the counter
fields, so the unexported `startTime` of the output is always the zero value
and a result carrying a start time is not reproduced. -/
theorem GenerationResult_Add_identity_counterexample :
    timedResult.Add GenerationResult.zero ≠ timedResult ∧
    GenerationResult.zero.Add timedResult ≠ timedResult := by
  decide

/-- C8 (amended): `Add` is pointwise addition of the seven counters (and
resets the unexported start-time field to zero); it is associative and
commutative, the all-zero result is a two-sided identity on results whose
start-time field is unset, and folding `Add` over any permutation of a list
of per-document results yields the same totals. -/
theorem GenerationResult_Add_amended_monoid :
    (∀ a b c : GenerationResult, (a.Add b).Add c = a.Add (b.Add c)) ∧
    (∀ a b : GenerationResult, a.Add b = b.Add a) ∧
    (∀ a : GenerationResult, a.startTime = 0 →
      a.Add GenerationResult.zero = a ∧ GenerationResult.zero.Add a = a) ∧
    (∀ l l' : List GenerationResult, l.Perm l' →
      l.foldr GenerationResult.Add GenerationResult.zero =
        l'.foldr GenerationResult.Add GenerationResult.zero) := by
  refine ⟨GenerationResult.Add_assoc, GenerationResult.Add_comm, ?_,
    fun _ _ h => GenerationResult.foldr_Add_perm h⟩
  intro a ha
  cases a
  simp only [GenerationResult.Add, GenerationResult.zero] at *
  subst ha
  constructor <;> simp

/-- C8 witness: the amended identity law at a concrete result with unset
start time, and a concrete permutation fold. -/
theorem GenerationResult_Add_amended_monoid_witness :
    (⟨1, 2, 3, 4, 5, 6, 7, 0⟩ : GenerationResult).Add GenerationResult.zero =
        ⟨1, 2, 3, 4, 5, 6, 7, 0⟩ ∧
      GenerationResult.zero.Add (⟨1, 2, 3, 4, 5, 6, 7, 0⟩ : GenerationResult) =
        ⟨1, 2, 3, 4, 5, 6, 7, 0⟩ :=
  GenerationResult_Add_amended_monoid.2.2.1 ⟨1, 2, 3, 4, 5, 6, 7, 0⟩ rfl

/-- Embeds `FileInfo` (generator/types.go lines 45-52); `time.Time` becomes
an `Int` timestamp. -/
structure FileInfo where
  path : String
  modTime : Int
  preview : String
  title : String
  tags : List String
  uuids : List String
deriving DecidableEq

/-- Embeds `BuildContext` (generator/types.go lines 15-21). -/
structure BuildContext where
  root : String
  destDir : String
  forceRebuild : Bool
  tmplModTime : Int
  siteName : String
deriving DecidableEq

/-- What one `generateHTML` call (generator/phase2.go lines 153-216) did:
`sentinel` and `cacheSkip` are the two early `return nil` paths (no read, no
link rewriting, no write); `generated` is the full pipeline ending in a
successful write; `failed` is any error return. -/
inductive GenOutcome where
  | sentinel
  | cacheSkip
  | generated
  | failed
deriving DecidableEq

/-- Embeds the cache test of `generateHTML` (generator/phase2.go lines
165-172): not forcing a rebuild, the output stat succeeded, and neither the
source's nor the template's modification time is `After` (strictly above)
the existing output's.  `outStat` is the result of `os.Stat(outputPath)`. -/
def cacheValid (fi : FileInfo) (ctx : BuildContext) (outStat : Option Int) : Bool :=
  !ctx.forceRebuild &&
    (match outStat with
     | some outMod => !(decide (outMod < fi.modTime)) && !(decide (outMod < ctx.tmplModTime))
     | none => false)

/-- Embeds `generateHTML` (generator/phase2.go lines 153-216) as its
observable outcome.  `ioFail` abstracts failure of any of the fallible steps
on the generation path (read, org-to-HTML conversion, template execution,
directory creation, write). -/
def generateHTML (fi : FileInfo) (ctx : BuildContext) (outStat : Option Int)
    (ioFail : Bool) : GenOutcome :=
  if fi.path = "sitemap-preamble.org" then .sentinel
  else if cacheValid fi ctx outStat then .cacheSkip
  else if ioFail then .failed
  else .generated

/-- Embeds the tallying loop of `GenerateHtmlPages` (generator/phase2.go
lines 127-151): an error return increments `errors`, every `nil` return —
including the sentinel and cache-skip paths — increments `filesGenerated`;
the returned struct sets only those two fields. -/
def genStep (ctx : BuildContext) (r : GenerationResult)
    (f : FileInfo × Option Int × Bool) : GenerationResult :=
  match generateHTML f.1 ctx f.2.1 f.2.2 with
  | .failed => { r with errors := r.errors + 1 }
  | _ => { r with filesGenerated := r.filesGenerated + 1 }

/-- Embeds `GenerateHtmlPages` (generator/phase2.go lines 105-151).  Each
input carries the file, the stat of its already-existing output (if any) and
whether its generation would hit an I/O or template error. -/
def GenerateHtmlPages (ctx : BuildContext)
    (files : List (FileInfo × Option Int × Bool)) : GenerationResult :=
  files.foldl (genStep ctx) GenerationResult.zero

theorem GenerateHtmlPages_foldl (ctx : BuildContext)
    (files : List (FileInfo × Option Int × Bool)) (r0 : GenerationResult) :
    (files.foldl (genStep ctx) r0).filesGenerated =
        r0.filesGenerated +
          (files.countP
            (fun f => decide (generateHTML f.1 ctx f.2.1 f.2.2 ≠ GenOutcome.failed)) : Int) ∧
      (files.foldl (genStep ctx) r0).errors =
        r0.errors +
          (files.countP
            (fun f => decide (generateHTML f.1 ctx f.2.1 f.2.2 = GenOutcome.failed)) : Int) ∧
      (files.foldl (genStep ctx) r0).filesSkipped = r0.filesSkipped ∧
      (files.foldl (genStep ctx) r0).filesGenerated + (files.foldl (genStep ctx) r0).errors =
        r0.filesGenerated + r0.errors + (files.length : Int) := by
  induction files generalizing r0 with
  | nil => simp
  | cons f fs ih =>
      obtain ⟨ih1, ih2, ih3, ih4⟩ := ih (genStep ctx r0 f)
      refine ⟨?_, ?_, ?_, ?_⟩
      · simp only [List.foldl_cons, List.countP_cons, ih1]
        cases h : generateHTML f.1 ctx f.2.1 f.2.2 <;>
          simp [genStep, h] <;> push_cast <;> ring
      · simp only [List.foldl_cons, List.countP_cons, ih2]
        cases h : generateHTML f.1 ctx f.2.1 f.2.2 <;>
          simp [genStep, h] <;> push_cast <;> ring
      · simp only [List.foldl_cons, ih3]
        cases h : generateHTML f.1 ctx f.2.1 f.2.2 <;> simp [genStep, h]
      · simp only [List.foldl_cons, List.length_cons, ih4]
        cases h : generateHTML f.1 ctx f.2.1 f.2.2 <;>
          simp [genStep, h] <;> push_cast <;> ring

/-- C10: in the HTML-generation phase every input document is tallied exactly
once, into `filesGenerated` or `errors`; `filesGenerated + errors` equals the
number of inputs, `filesSkipped` is never incremented, and `filesGenerated`
counts exactly the documents whose call did not return an error — which
includes cache-skipped documents and the sitemap-preamble sentinel. -/
theorem GenerateHtmlPages_counts (ctx : BuildContext)
    (files : List (FileInfo × Option Int × Bool)) :
    (GenerateHtmlPages ctx files).filesGenerated + (GenerateHtmlPages ctx files).errors =
        (files.length : Int) ∧
      (GenerateHtmlPages ctx files).filesSkipped = 0 ∧
      (GenerateHtmlPages ctx files).filesGenerated =
        (files.countP
          (fun f => decide (generateHTML f.1 ctx f.2.1 f.2.2 ≠ GenOutcome.failed)) : Int) := by
  obtain ⟨h1, h2, h3, h4⟩ := GenerateHtmlPages_foldl ctx files GenerationResult.zero
  have hz : GenerationResult.zero.filesGenerated = 0 ∧ GenerationResult.zero.errors = 0 ∧
      GenerationResult.zero.filesSkipped = 0 := by decide
  refine ⟨?_, ?_, ?_⟩
  · rw [GenerateHtmlPages, h4, hz.1, hz.2.1]
    ring
  · rw [GenerateHtmlPages, h3, hz.2.2]
  · rw [GenerateHtmlPages, h1, hz.1]
    ring

/-- The one-document second-run fixture: source `a.org` unchanged (mod time
0), template unchanged (mod time 0), output written by the first run (mod
time 1), no I/O failure, no forced rebuild. -/
def secondRunFile : FileInfo :=
  { path := "a.org", modTime := 0, preview := "", title := "", tags := [], uuids := [] }

/-- The build context of the second run. -/
def secondRunCtx : BuildContext :=
  { root := "", destDir := "", forceRebuild := false, tmplModTime := 0, siteName := "" }

/-- C5: evaluating the code at the failing input.  On the second run over one
unchanged document the cache check does fire (`cacheSkip`: the document is
not reparsed or rewritten), yet the phase reports `filesGenerated = 1` and
`filesSkipped = 0`, not `filesGenerated = 0` and `filesSkipped = 1` as the
claim (and the function's own doc comment) require. -/
theorem secondRun_counts_diverge :
    generateHTML secondRunFile secondRunCtx (some 1) false = GenOutcome.cacheSkip ∧
    (GenerateHtmlPages secondRunCtx [(secondRunFile, some 1, false)]).filesGenerated = 1 ∧
    (GenerateHtmlPages secondRunCtx [(secondRunFile, some 1, false)]).filesSkipped = 0 ∧
    ¬((GenerateHtmlPages secondRunCtx [(secondRunFile, some 1, false)]).filesGenerated = 0 ∧
      (GenerateHtmlPages secondRunCtx [(secondRunFile, some 1, false)]).filesSkipped = 1) := by
  decide

/-- The freshness condition in the words of the claim and of the Cache
Oracle contract (spec §4.4): the output exists and its modification time is
at or after both the source's and the template's. -/
def specFresh (fi : FileInfo) (ctx : BuildContext) (outStat : Option Int) : Bool :=
  match outStat with
  | some outMod => decide (fi.modTime ≤ outMod) && decide (ctx.tmplModTime ≤ outMod)
  | none => false

/-- The sitemap-preamble sentinel document, with no existing output. -/
def sentinelFile : FileInfo :=
  { path := "sitemap-preamble.org", modTime := 5, preview := "", title := "", tags := [],
    uuids := [] }

/-- C4 counterexample: for the sitemap-preamble sentinel document with no
existing output, `generateHTML` still skips regeneration (early return, no
write), so "skips exactly when the output exists and is fresh" fails. -/
theorem generateHTML_cache_claim_counterexample :
    ¬((generateHTML sentinelFile secondRunCtx none false ≠ GenOutcome.generated ∧
       generateHTML sentinelFile secondRunCtx none false ≠ GenOutcome.failed) ↔
      specFresh sentinelFile secondRunCtx none = true) := by
  decide

/-- C4 (amended): for every document other than the sitemap-preamble
sentinel, with `forceRebuild = false`, the rendering phase skips regeneration
exactly when the output exists with a modification time at or after both the
source's and the template's; if that freshness condition fails (and the
generation pipeline itself does not error), the document is regenerated. -/
theorem generateHTML_cache_amended (fi : FileInfo) (ctx : BuildContext)
    (outStat : Option Int) (ioFail : Bool)
    (hsent : fi.path ≠ "sitemap-preamble.org") (hforce : ctx.forceRebuild = false) :
    (generateHTML fi ctx outStat ioFail = GenOutcome.cacheSkip ↔
        specFresh fi ctx outStat = true) ∧
      (specFresh fi ctx outStat = false → ioFail = false →
        generateHTML fi ctx outStat ioFail = GenOutcome.generated) := by
  have hcv : cacheValid fi ctx outStat = specFresh fi ctx outStat := by
    unfold cacheValid specFresh
    cases outStat with
    | none => simp [hforce]
    | some outMod =>
        have e1 : ∀ x y : Int, (!decide (x < y)) = decide (y ≤ x) := by
          intro x y
          rw [← decide_not]
          exact decide_eq_decide.mpr not_lt
        simp only [hforce, Bool.not_false, Bool.true_and, e1]
  constructor
  · rw [generateHTML, if_neg hsent, hcv]
    by_cases hf : specFresh fi ctx outStat = true
    · simp [hf]
    · simp only [Bool.not_eq_true] at hf
      cases hio : ioFail <;> simp [hf, hio]
  · intro hf hio
    rw [generateHTML, if_neg hsent, hcv, hf, hio]
    simp

/-- C4 witness: the amended cache rule at a concrete fresh document and a
concrete stale document. -/
theorem generateHTML_cache_amended_witness :
    (generateHTML ⟨"b.org", 3, "", "", [], []⟩ ⟨"", "", false, 2, ""⟩ (some 3) false =
          GenOutcome.cacheSkip ↔
        specFresh ⟨"b.org", 3, "", "", [], []⟩ ⟨"", "", false, 2, ""⟩ (some 3) = true) ∧
      (specFresh ⟨"b.org", 3, "", "", [], []⟩ ⟨"", "", false, 2, ""⟩ (some 3) = false →
        false = false →
        generateHTML ⟨"b.org", 3, "", "", [], []⟩ ⟨"", "", false, 2, ""⟩ (some 3) false =
          GenOutcome.generated) :=
  generateHTML_cache_amended ⟨"b.org", 3, "", "", [], []⟩ ⟨"", "", false, 2, ""⟩ (some 3) false
    (by decide) rfl

/-- Embeds the backward walk of the preview truncation (generator/phase1.go
lines 238-241 and generator/utils.go lines 327-330): from the initial cut
point, step back one byte at a time while the byte just before the cut
exceeds 127. -/
def walkBack (text : List Nat) : Nat → Nat
  | 0 => 0
  | n + 1 => if text.getD n 0 > 127 then walkBack text n else n + 1

/-- Embeds the final truncation step shared by `extractPreview`
(generator/phase1.go lines 237-244) and `extractPreviewFromAST`
(generator/utils.go lines 326-334).  Its input is the already
whitespace-collapsed, sentence-boundary-spaced preview text as bytes; 46 is
the byte of the full stop, so `[46, 46, 46]` is the `"..."` marker. -/
def previewTruncate (text : List Nat) (maxLen : Nat) : List Nat :=
  if text.length > maxLen then text.take (walkBack text maxLen) ++ [46, 46, 46]
  else text

theorem walkBack_le (text : List Nat) : ∀ n, walkBack text n ≤ n := by
  intro n
  induction n with
  | zero => exact le_rfl
  | succ n ih =>
      rw [walkBack]
      split
      · omega
      · omega

theorem walkBack_last (text : List Nat) :
    ∀ n, walkBack text n = 0 ∨ text.getD (walkBack text n - 1) 0 ≤ 127 := by
  intro n
  induction n with
  | zero => exact Or.inl rfl
  | succ n ih =>
      rw [walkBack]
      split
      · exact ih
      · right
        simp only [Nat.add_sub_cancel]
        omega

/-- Standard UTF-8 encoding of one Unicode code point. -/
def encodeChar (c : Nat) : List Nat :=
  if c < 128 then [c]
  else if c < 2048 then [192 + c / 64, 128 + c % 64]
  else if c < 65536 then [224 + c / 4096, 128 + (c / 64) % 64, 128 + c % 64]
  else [240 + c / 262144, 128 + (c / 4096) % 64, 128 + (c / 64) % 64, 128 + c % 64]

/-- Standard UTF-8 encoding of a sequence of code points. -/
def utf8Encode (cs : List Nat) : List Nat := (cs.map encodeChar).join

theorem utf8Encode_cons (c : Nat) (cs : List Nat) :
    utf8Encode (c :: cs) = encodeChar c ++ utf8Encode cs := by
  simp [utf8Encode]

theorem encodeChar_big {c : Nat} (hc : 128 ≤ c) : ∀ b ∈ encodeChar c, 127 < b := by
  intro b hb
  unfold encodeChar at hb
  split at hb
  · omega
  · split at hb
    · simp only [List.mem_cons, List.mem_singleton, List.not_mem_nil, or_false] at hb
      rcases hb with rfl | rfl <;> omega
    · split at hb
      · simp only [List.mem_cons, List.mem_singleton, List.not_mem_nil, or_false] at hb
        rcases hb with rfl | rfl | rfl <;> omega
      · simp only [List.mem_cons, List.mem_singleton, List.not_mem_nil, or_false] at hb
        rcases hb with rfl | rfl | rfl | rfl <;> omega

theorem encodeChar_length_pos (c : Nat) : 0 < (encodeChar c).length := by
  unfold encodeChar
  split
  · simp
  · split
    · simp
    · split <;> simp

/-- A prefix of a UTF-8 encoded text that ends just after a byte ≤ 127 (or is
empty) never splits a multi-byte character: it is the encoding of a prefix of
the character sequence. -/
theorem utf8Encode_take_boundary (cs : List Nat) :
    ∀ c, c ≤ (utf8Encode cs).length → (c = 0 ∨ (utf8Encode cs).getD (c - 1) 0 ≤ 127) →
      ∃ ds es, cs = ds ++ es ∧ (utf8Encode cs).take c = utf8Encode ds := by
  induction cs with
  | nil =>
      intro c hc _
      exact ⟨[], [], rfl, by simp [utf8Encode]⟩
  | cons ch cs ih =>
      intro c hc hb
      by_cases h0 : c = 0
      · exact ⟨[], ch :: cs, rfl, by simp [h0, utf8Encode]⟩
      have hsplit : utf8Encode (ch :: cs) = encodeChar ch ++ utf8Encode cs :=
        utf8Encode_cons ch cs
      rcases lt_or_ge c (encodeChar ch).length with hlt | hge
      · exfalso
        have hch : 128 ≤ ch := by
          by_contra hsmall
          have : encodeChar ch = [ch] := by
            unfold encodeChar
            rw [if_pos (by omega)]
          rw [this] at hlt
          simp at hlt
          omega
        have hmem : (encodeChar ch).getD (c - 1) 0 ∈ encodeChar ch := by
          rw [List.getD_eq_getElem _ _ (show c - 1 < (encodeChar ch).length by omega)]
          exact List.getElem_mem _
        have hbig : 127 < (encodeChar ch).getD (c - 1) 0 :=
          encodeChar_big hch _ hmem
        rcases hb with h | h
        · exact h0 h
        · rw [hsplit, List.getD_append _ _ _ _ (by omega)] at h
          omega
      · have hctail : c - (encodeChar ch).length ≤ (utf8Encode cs).length := by
          rw [hsplit, List.length_append] at hc
          omega
        have hbtail : c - (encodeChar ch).length = 0 ∨
            (utf8Encode cs).getD (c - (encodeChar ch).length - 1) 0 ≤ 127 := by
          by_cases hce : c = (encodeChar ch).length
          · left; omega
          · right
            rcases hb with h | h
            · exact absurd h h0
            · rw [hsplit, List.getD_append_right _ _ _ _ (by omega)] at h
              have harith : c - 1 - (encodeChar ch).length = c - (encodeChar ch).length - 1 := by
                omega
              rwa [harith] at h
        obtain ⟨ds, es, hcs, htake⟩ := ih (c - (encodeChar ch).length) hctail hbtail
        refine ⟨ch :: ds, es, by simp [hcs], ?_⟩
        rw [hsplit, List.take_append_eq_append_take, List.take_of_length_le hge, htake,
          utf8Encode_cons]

/-- C9: if the (whitespace-collapsed, sentence-boundary-spaced) preview text
fits the 500-byte budget it is emitted unchanged with no ellipsis; if it
exceeds the budget, the emitted preview is a prefix of it of length at most
500 followed by `"..."`, the truncation point having been walked backward
byte-by-byte while the preceding byte exceeds 127 — so the last byte before
the ellipsis is at most 127 unless the prefix is empty, and on UTF-8 text no
multi-byte character is split (the prefix encodes a prefix of the character
sequence). -/
theorem extractPreview_truncation :
    (∀ text : List Nat, text.length ≤ 500 → previewTruncate text 500 = text) ∧
    ∀ text cs : List Nat, 500 < text.length → text = utf8Encode cs →
      ∃ c, c ≤ 500 ∧ previewTruncate text 500 = text.take c ++ [46, 46, 46] ∧
        (c = 0 ∨ text.getD (c - 1) 0 ≤ 127) ∧
        ∃ ds es, cs = ds ++ es ∧ text.take c = utf8Encode ds := by
  constructor
  · intro text hlen
    rw [previewTruncate, if_neg (by omega)]
  · intro text cs hlen henc
    refine ⟨walkBack text 500, walkBack_le text 500, ?_, walkBack_last text 500, ?_⟩
    · rw [previewTruncate, if_pos (by omega)]
    · subst henc
      exact utf8Encode_take_boundary cs (walkBack _ 500)
        (le_trans (walkBack_le _ 500) (by omega)) (walkBack_last _ 500)

/-- The character sequence of the concrete over-budget preview: 499 ASCII
digits followed by é (U+00E9, two bytes in UTF-8), 501 bytes in all. -/
def previewWitnessChars : List Nat := List.replicate 499 48 ++ [233]

/-- Its UTF-8 byte sequence. -/
def previewWitnessText : List Nat := utf8Encode previewWitnessChars

set_option maxRecDepth 8192 in
/-- C9 witness: the truncation theorem evaluated at a 1-byte under-budget
text and at the concrete 501-byte over-budget text ending in a two-byte
character. -/
theorem extractPreview_truncation_witness :
    previewTruncate [48] 500 = [48] ∧
    ∃ c, c ≤ 500 ∧ previewTruncate previewWitnessText 500 =
        previewWitnessText.take c ++ [46, 46, 46] ∧
      (c = 0 ∨ previewWitnessText.getD (c - 1) 0 ≤ 127) ∧
      ∃ ds es, previewWitnessChars = ds ++ es ∧
        previewWitnessText.take c = utf8Encode ds :=
  ⟨extractPreview_truncation.1 [48] (by decide),
   extractPreview_truncation.2 previewWitnessText previewWitnessChars (by decide) rfl⟩

/-- Does the keyword occur as a prefix of the text?  Character-exact match,
as the Aho-Corasick machine of `replaceUUIDLinks` performs on runes. -/
def kwMatch : List Char → List Char → Bool
  | [], _ => true
  | _ :: _, [] => false
  | k :: ks, c :: cs => k == c && kwMatch ks cs

/-- Strip the longest common prefix of two segment lists. -/
def stripCommon : List String → List String → List String × List String
  | x :: xs, y :: ys => if x == y then stripCommon xs ys else (x :: xs, y :: ys)
  | xs, ys => (xs, ys)

/-- The whitespace set of `strings.TrimSpace` (`unicode.IsSpace`), restricted
to the Latin-1 range its callers can produce in practice. -/
def isSpaceGo (c : Char) : Bool :=
  c == ' ' || c == '\t' || c == '\n' || c == Char.ofNat 11 || c == Char.ofNat 12 ||
    c == '\r' || c == Char.ofNat 133 || c == Char.ofNat 160

/-- Embeds `strings.TrimSpace` on the rune sequence. -/
def trimGo (s : List Char) : List Char :=
  ((s.dropWhile isSpaceGo).reverse.dropWhile isSpaceGo).reverse

/-- Embeds `strings.Index`: position of the first occurrence of `sub`, or
`none` where Go returns -1. -/
def indexOfSub (s sub : List Char) : Option Nat :=
  (List.range (s.length + 1)).find? (fun i => kwMatch sub (s.drop i))

/-- Embeds `strings.Split` with a one-character separator. -/
def splitOnChar (sep : Char) : List Char → List (List Char)
  | [] => [[]]
  | c :: rest =>
      match splitOnChar sep rest with
      | [] => [[c]]
      | g :: gs => if c == sep then [] :: g :: gs else (c :: g) :: gs

/-- The tag-parsing tail of `extractTags` (generator/phase1.go lines
185-196), applied to a trimmed headline once the index `firstSpace` of its
`" :"` delimiter is known: take from just past the delimiter's space up to
the next space, split on colons, keep the nonempty parts. -/
def parseTagsAfter (trimmed : List Char) (firstSpace : Nat) : List String :=
  let tagStr := trimmed.drop (firstSpace + 1)
  let tagStr2 :=
    match indexOfSub tagStr [' '] with
    | some k => tagStr.take k
    | none => tagStr
  ((splitOnChar ':' tagStr2).filter (fun t => !t.isEmpty)).map (fun t => String.mk t)

/-- Is this trimmed line a headline (`"* "` prefix, not the bare `"* "`)? -/
def isHeadlineLine (trimmed : List Char) : Bool :=
  kwMatch "* ".toList trimmed && !(trimmed == "* ".toList)

/-- Embeds the line loop of `extractTags` (generator/phase1.go lines
172-202): scan lines in order; a headline without the `" :"` delimiter is
passed over (`continue`), and the first headline with the delimiter has its
tags parsed, ending the loop (`break`). -/
def extractTagsLines : List (List Char) → List String
  | [] => []
  | line :: rest =>
      if isHeadlineLine (trimGo line) then
        match indexOfSub (trimGo line) " :".toList with
        | none => extractTagsLines rest
        | some firstSpace => parseTagsAfter (trimGo line) firstSpace
      else extractTagsLines rest

/-- Embeds `extractTags` (generator/phase1.go lines 172-202); the
`strings.Split` on the newline is `splitOnChar`. -/
def extractTags (content : String) : List String :=
  extractTagsLines (splitOnChar (Char.ofNat 10) content.toList)

/-- The tag list of the first heading of the document, exactly as the claim
words it: the first headline line determines the tags; if it declares none
(or there is no headline) the result is empty.  Written from the
specification's words, for comparison with `extractTags`. -/
def firstHeadingTags (content : String) : List String :=
  match (splitOnChar (Char.ofNat 10) content.toList).find?
      (fun line => isHeadlineLine (trimGo line)) with
  | none => []
  | some line =>
      match indexOfSub (trimGo line) " :".toList with
      | none => []
      | some firstSpace => parseTagsAfter (trimGo line) firstSpace

/-- A document whose first heading declares no tags and whose second heading
declares `tag2`. -/
def tagsCounterexampleDoc : String := "* First\ncontent\n* Second :tag2:\n"

/-- C7 counterexample: `extractTags` takes the tags of a later heading when
the first heading declares none — the extracted list is not the first
heading's (empty) tag list. -/
theorem extractTags_claim_counterexample :
    extractTags tagsCounterexampleDoc = ["tag2"] ∧
    firstHeadingTags tagsCounterexampleDoc = [] ∧
    extractTags tagsCounterexampleDoc ≠ firstHeadingTags tagsCounterexampleDoc := by
  refine ⟨by decide, by decide, ?_⟩
  intro hcontra
  rw [show extractTags tagsCounterexampleDoc = ["tag2"] from by decide,
    show firstHeadingTags tagsCounterexampleDoc = [] from by decide] at hcontra
  simp at hcontra

/-- Is this line a headline that carries the tag delimiter `" :"`? -/
def isTagBearingHeadline (line : List Char) : Bool :=
  isHeadlineLine (trimGo line) && (indexOfSub (trimGo line) " :".toList).isSome

theorem extractTagsLines_eq_find (ls : List (List Char)) :
    extractTagsLines ls =
      match ls.find? isTagBearingHeadline with
      | none => []
      | some line =>
          match indexOfSub (trimGo line) " :".toList with
          | none => []
          | some firstSpace => parseTagsAfter (trimGo line) firstSpace := by
  induction ls with
  | nil => rfl
  | cons line rest ih =>
      by_cases hhl : isHeadlineLine (trimGo line) = true
      · cases hidx : indexOfSub (trimGo line) " :".toList with
        | none =>
            have hnot : isTagBearingHeadline line = false := by
              unfold isTagBearingHeadline
              rw [hidx]
              simp
            rw [List.find?_cons_of_neg _ (by simp [hnot]), extractTagsLines]
            simp only [hhl, if_true, hidx]
            exact ih
        | some firstSpace =>
            have hyes : isTagBearingHeadline line = true := by
              unfold isTagBearingHeadline
              rw [hidx, hhl]
              simp
            rw [List.find?_cons_of_pos _ hyes, extractTagsLines]
            simp only [hhl, if_true, hidx]
      · have hfalse : isHeadlineLine (trimGo line) = false := by
          rwa [Bool.not_eq_true] at hhl
        have hnot : isTagBearingHeadline line = false := by
          unfold isTagBearingHeadline
          rw [hfalse]
          simp
        rw [List.find?_cons_of_neg _ (by simp [hnot]), extractTagsLines]
        simp only [hfalse, if_false]
        exact ih

/-- C7 (amended): the extracted tag list comes from the first headline whose
text contains the tag delimiter `" :"` — headlines without the delimiter,
including a tag-less first heading, are skipped — and is empty when no
headline carries the delimiter (in particular when the document has no
headings at all). -/
theorem extractTags_amended (content : String) :
    extractTags content =
      match (splitOnChar (Char.ofNat 10) content.toList).find? isTagBearingHeadline with
      | none => []
      | some line =>
          match indexOfSub (trimGo line) " :".toList with
          | none => []
          | some firstSpace => parseTagsAfter (trimGo line) firstSpace := by
  rw [extractTags, extractTagsLines_eq_find]

/-- C7 witness: the amended characterization evaluated at the concrete
document whose first delimiter-bearing headline is the second one. -/
theorem extractTags_amended_witness :
    extractTags tagsCounterexampleDoc =
      match (splitOnChar (Char.ofNat 10) tagsCounterexampleDoc.toList).find?
          isTagBearingHeadline with
      | none => []
      | some line =>
          match indexOfSub (trimGo line) " :".toList with
          | none => []
          | some firstSpace => parseTagsAfter (trimGo line) firstSpace :=
  extractTags_amended tagsCounterexampleDoc

/-- Byte sequence (UTF-8) of a Lean string, for feeding whole strings to the
byte-level validator. -/
def strBytes (s : String) : List Nat := utf8Encode (s.toList.map Char.toNat)

/-- `isValidUUID` applied to a string's UTF-8 bytes. -/
def isValidUUIDStr (s : String) : Bool := isValidUUID (strBytes s)

/-- Modelled from the spec: `HeaderLocation` — the resolved
`{documentPath, headingOrdinal}` target of an identifier (spec §3).  The
revision of generator/phase1.go that stores `HeaderLocation` values in the
identifier index is not part of the source tree; only its tests
(`generator.HeaderLocation` in the end-to-end suite) and ARCHITECTURE.md
refer to it. -/
structure HeaderLocation where
  filePath : String
  headerIndex : Nat
deriving DecidableEq

/-- Modelled from the spec: a heading of a document, carrying the values of
its "ID" properties in order. -/
structure Heading where
  ids : List String
deriving DecidableEq

/-- Modelled from the spec: a source document — its root-relative
slash-normalized path, its headings in document order, and the identifiers
its body's identifier-scheme links reference. -/
structure Document where
  path : String
  headings : List Heading
  links : List String
deriving DecidableEq

/-- The heading at 0-based position `j`, in document order. -/
def nthHeading : List Heading → Nat → Option Heading
  | [], _ => none
  | h :: _, 0 => some h
  | _ :: hs, j + 1 => nthHeading hs j

/-- Does any of the first `j` headings declare `u`? -/
def declaredBefore (u : String) : List Heading → Nat → Bool
  | _, 0 => false
  | [], _ => false
  | h :: hs, j + 1 => h.ids.contains u || declaredBefore u hs j

/-- Is `u` declared on the heading whose 1-based ordinal is `k`? -/
def declaredAt (d : Document) (u : String) (k : Nat) : Bool :=
  match nthHeading d.headings (k - 1) with
  | some h => h.ids.contains u
  | none => false

/-- Does the document declare `u` on any heading? -/
def declares (d : Document) (u : String) : Bool :=
  d.headings.any (fun h => h.ids.contains u)

/-- Modelled from the spec: the identifier registrations one document
contributes, before per-document deduplication — walk headings in document
order, assign 1-based ordinals starting at `k0`, and register every valid
identifier value as `identifier -> {documentPath, headingOrdinal}`
(spec §4.2 step 2). -/
def rawEntries (path : String) : Nat → List Heading → List (String × HeaderLocation)
  | _, [] => []
  | k, h :: hs =>
      (h.ids.filter (fun u => isValidUUIDStr u)).map (fun u => (u, HeaderLocation.mk path k)) ++
        rawEntries path (k + 1) hs

/-- Helper for `dedupKeys`: structural recursion on a fuel bound (the filter
never lengthens the tail, so `l.length` fuel suffices). -/
def dedupKeysFuel : Nat → List (String × HeaderLocation) → List (String × HeaderLocation)
  | 0, l => l
  | _, [] => []
  | fuel + 1, e :: r => e :: dedupKeysFuel fuel (r.filter (fun e2 => !(e2.1 == e.1)))

/-- Modelled from the spec: keep only the first registration of each
identifier within one document ("not already recorded for that document",
spec §4.2 step 2). -/
def dedupKeys (l : List (String × HeaderLocation)) : List (String × HeaderLocation) :=
  dedupKeysFuel l.length l

/-- Modelled from the spec: the identifier registrations of one document. -/
def docEntries (d : Document) : List (String × HeaderLocation) :=
  dedupKeys (rawEntries d.path 1 d.headings)

/-- Modelled from the spec: the shared identifier index after the discovery
barrier — every document's registrations, written into one map where a
later write to the same key overwrites an earlier one (last-write-wins,
spec §9). -/
def buildIndex (docs : List Document) : List (String × HeaderLocation) :=
  (docs.map docEntries).join

/-- Modelled from the spec: `lookup(identifier) -> HeaderLocation |
not-found` (spec §6) over the written entries; the latest write to a key
wins. -/
def lookupId (idx : List (String × HeaderLocation)) (u : String) : Option HeaderLocation :=
  (idx.reverse.find? (fun e => e.1 == u)).map (fun e => e.2)

theorem find?_append_left {α : Type} (p : α → Bool) (l1 l2 : List α) (x : α)
    (h : l1.find? p = some x) : (l1 ++ l2).find? p = some x := by
  induction l1 with
  | nil => simp [List.find?] at h
  | cons y ys ih =>
      cases hy : p y with
      | true =>
          rw [List.find?_cons_of_pos _ hy] at h
          rw [List.cons_append, List.find?_cons_of_pos _ hy]
          exact h
      | false =>
          rw [List.find?_cons_of_neg _ (by simp [hy])] at h
          rw [List.cons_append, List.find?_cons_of_neg _ (by simp [hy])]
          exact ih h

theorem find?_append_right {α : Type} (p : α → Bool) (l1 l2 : List α)
    (h : l1.find? p = none) : (l1 ++ l2).find? p = l2.find? p := by
  induction l1 with
  | nil => simp
  | cons y ys ih =>
      rw [List.find?_eq_none] at h
      have hy : p y = false := by
        have := h y (by simp)
        simpa using this
      rw [List.cons_append, List.find?_cons_of_neg _ (by simp [hy])]
      exact ih (by rw [List.find?_eq_none]; intro x hx; exact h x (by simp [hx]))

theorem find?_keyMap (ids : List String) (loc : HeaderLocation) (u : String)
    (hu : u ∈ ids) :
    (ids.map (fun u2 => (u2, loc))).find? (fun e => e.1 == u) = some (u, loc) := by
  induction ids with
  | nil => simp at hu
  | cons v vs ih =>
      by_cases hv : v = u
      · subst hv
        rw [List.map_cons, List.find?_cons_of_pos _ (by simp)]
      · rcases List.mem_cons.mp hu with rfl | hmem
        · exact absurd rfl hv
        · rw [List.map_cons, List.find?_cons_of_neg _ (by simp [hv])]
          exact ih hmem

theorem contains_true_iff (l : List String) (u : String) :
    l.contains u = true ↔ u ∈ l := by
  simp [List.contains_iff_exists_mem_beq]

theorem rawEntries_find (path : String) (u : String) :
    ∀ (hs : List Heading) (k0 j : Nat) (h : Heading),
      nthHeading hs j = some h → h.ids.contains u = true →
      isValidUUIDStr u = true → declaredBefore u hs j = false →
      (rawEntries path k0 hs).find? (fun e => e.1 == u) =
        some (u, HeaderLocation.mk path (k0 + j)) := by
  intro hs
  induction hs with
  | nil => intro k0 j h hj; simp [nthHeading] at hj
  | cons h0 hs ih =>
      intro k0 j h hj hcont hvalid hbefore
      cases j with
      | zero =>
          have hh : h = h0 := by
            simp [nthHeading] at hj
            exact hj.symm
          rw [hh] at hcont
          rw [rawEntries]
          apply find?_append_left
          have humem : u ∈ h0.ids.filter (fun u2 => isValidUUIDStr u2) := by
            rw [List.mem_filter]
            exact ⟨(contains_true_iff _ _).mp hcont, hvalid⟩
          have := find?_keyMap (h0.ids.filter (fun u2 => isValidUUIDStr u2))
            (HeaderLocation.mk path k0) u humem
          rw [this]
          norm_num
      | succ j =>
          rw [declaredBefore, Bool.or_eq_false_iff] at hbefore
          rw [rawEntries]
          rw [find?_append_right]
          · have := ih (k0 + 1) j h (by simpa [nthHeading] using hj) hcont hvalid hbefore.2
            rw [this]
            have harith : k0 + 1 + j = k0 + (j + 1) := by omega
            rw [harith]
          · rw [List.find?_eq_none]
            intro e he
            simp only [List.mem_map, List.mem_filter] at he
            obtain ⟨u2, ⟨hu2mem, -⟩, rfl⟩ := he
            simp only [beq_eq_false_iff_ne, ne_eq]
            intro hueq
            have hu2u : u2 = u := by simpa using hueq
            rw [hu2u] at hu2mem
            have : h0.ids.contains u = true := (contains_true_iff _ _).mpr hu2mem
            rw [this] at hbefore
            simp at hbefore

theorem rawEntries_mem (path : String) :
    ∀ (hs : List Heading) (k0 : Nat) (e : String × HeaderLocation),
      e ∈ rawEntries path k0 hs → ∃ h ∈ hs, h.ids.contains e.1 = true := by
  intro hs
  induction hs with
  | nil => intro k0 e he; simp [rawEntries] at he
  | cons h0 hs ih =>
      intro k0 e he
      rw [rawEntries, List.mem_append] at he
      rcases he with he | he
      · simp only [List.mem_map, List.mem_filter] at he
        obtain ⟨u2, ⟨hu2, -⟩, rfl⟩ := he
        refine ⟨h0, by simp, ?_⟩
        exact (contains_true_iff _ _).mpr hu2
      · obtain ⟨h, hh, hc⟩ := ih (k0 + 1) e he
        exact ⟨h, by simp [hh], hc⟩

theorem dedupKeysFuel_subset :
    ∀ (fuel : Nat) (l : List (String × HeaderLocation)) (e : String × HeaderLocation),
      e ∈ dedupKeysFuel fuel l → e ∈ l := by
  intro fuel
  induction fuel with
  | zero =>
      intro l e he
      simpa only [dedupKeysFuel] using he
  | succ fuel ih =>
      intro l e he
      cases l with
      | nil => simp [dedupKeysFuel] at he
      | cons x r =>
          rw [dedupKeysFuel, List.mem_cons] at he
          rcases he with rfl | he
          · simp
          · have := ih _ _ he
            rw [List.mem_filter] at this
            simp [this.1]

theorem find?_filter_ne (u w : String) (hne : u ≠ w) :
    ∀ r : List (String × HeaderLocation),
      (r.filter (fun e2 => !(e2.1 == w))).find? (fun e2 => e2.1 == u) =
        r.find? (fun e2 => e2.1 == u) := by
  intro r
  induction r with
  | nil => rfl
  | cons y r ih =>
      by_cases hyw : y.1 = w
      · rw [List.filter_cons_of_neg (by simp [hyw])]
        rw [List.find?_cons_of_neg _ (by simp [hyw, hne.symm])]
        exact ih
      · rw [List.filter_cons_of_pos (by simp [hyw])]
        by_cases hyu : y.1 = u
        · rw [List.find?_cons_of_pos _ (by simp [hyu]),
            List.find?_cons_of_pos _ (by simp [hyu])]
        · rw [List.find?_cons_of_neg _ (by simp [hyu]),
            List.find?_cons_of_neg _ (by simp [hyu])]
          exact ih

theorem dedupKeysFuel_key_eq :
    ∀ (fuel : Nat) (l : List (String × HeaderLocation)), l.length ≤ fuel →
      ∀ e ∈ dedupKeysFuel fuel l, ∀ u : String, e.1 = u →
        l.find? (fun e2 => e2.1 == u) = some e := by
  intro fuel
  induction fuel with
  | zero =>
      intro l hl e he u hu
      have hl0 : l = [] := List.length_eq_zero.mp (by omega)
      subst hl0
      simp [dedupKeysFuel] at he
  | succ fuel ih =>
      intro l hl e he u hu
      cases l with
      | nil => simp [dedupKeysFuel] at he
      | cons x r =>
          rw [dedupKeysFuel, List.mem_cons] at he
          rcases he with rfl | he
          · rw [List.find?_cons_of_pos _ (by simp [hu])]
          · by_cases hxu : x.1 = u
            · exfalso
              have hmem := dedupKeysFuel_subset fuel _ e he
              rw [List.mem_filter] at hmem
              have : (e.1 == x.1) = false := by simpa using hmem.2
              rw [hu, hxu] at this
              simp at this
            · rw [List.find?_cons_of_neg _ (by simp [hxu])]
              have hlen : (r.filter (fun e2 => !(e2.1 == x.1))).length ≤ fuel := by
                have := List.length_filter_le (fun e2 => !(e2.1 == x.1)) r
                simp only [List.length_cons] at hl
                omega
              have := ih _ hlen e he u hu
              rwa [find?_filter_ne u x.1 (fun hcon => hxu hcon.symm)] at this

theorem dedupKeysFuel_first_mem :
    ∀ (fuel : Nat) (l : List (String × HeaderLocation)), l.length ≤ fuel →
      ∀ (u : String) (e : String × HeaderLocation),
        l.find? (fun e2 => e2.1 == u) = some e → e ∈ dedupKeysFuel fuel l := by
  intro fuel
  induction fuel with
  | zero =>
      intro l hl u e he
      have hl0 : l = [] := List.length_eq_zero.mp (by omega)
      subst hl0
      simp [List.find?] at he
  | succ fuel ih =>
      intro l hl u e he
      cases l with
      | nil => simp [List.find?] at he
      | cons x r =>
          rw [List.find?_cons] at he
          cases hx : ((x.1 == u) : Bool) with
          | true =>
              rw [hx] at he
              simp only [cond_true, Option.some_inj] at he
              rw [dedupKeysFuel]
              simp [← he]
          | false =>
              rw [hx] at he
              simp only [cond_false] at he
              have hxu : x.1 ≠ u := by simpa using hx
              have hlen : (r.filter (fun e2 => !(e2.1 == x.1))).length ≤ fuel := by
                have := List.length_filter_le (fun e2 => !(e2.1 == x.1)) r
                simp only [List.length_cons] at hl
                omega
              have hfilter :
                  (r.filter (fun e2 => !(e2.1 == x.1))).find? (fun e2 => e2.1 == u) =
                    some e := by
                rw [find?_filter_ne u x.1 (fun hcon => hxu hcon.symm)]
                exact he
              rw [dedupKeysFuel]
              exact List.mem_cons.mpr (Or.inr (ih _ hlen u e hfilter))

/-- C2: after the discovery phase, looking up a valid identifier `u` that
document `D` (and no other document) declares first on its heading of
1-based ordinal `k` returns the pair of `D`'s root-relative path and `k`. -/
theorem discovery_lookup (docs : List Document) (d : Document) (u : String) (k : Nat)
    (hd : d ∈ docs)
    (hvalid : isValidUUIDStr u = true)
    (hk1 : 1 ≤ k)
    (hat : declaredAt d u k = true)
    (hbefore : declaredBefore u d.headings (k - 1) = false)
    (huniq : ∀ d2 ∈ docs, declares d2 u = true → d2 = d) :
    lookupId (buildIndex docs) u = some (HeaderLocation.mk d.path k) := by
  obtain ⟨h, hnth, hcont⟩ : ∃ h, nthHeading d.headings (k - 1) = some h ∧
      h.ids.contains u = true := by
    unfold declaredAt at hat
    cases hnth : nthHeading d.headings (k - 1) with
    | none => rw [hnth] at hat; simp at hat
    | some h => rw [hnth] at hat; exact ⟨h, rfl, hat⟩
  have hfind_raw : (rawEntries d.path 1 d.headings).find? (fun e => e.1 == u) =
      some (u, HeaderLocation.mk d.path k) := by
    have := rawEntries_find d.path u d.headings 1 (k - 1) h hnth hcont hvalid hbefore
    rwa [show 1 + (k - 1) = k by omega] at this
  have hmem_dedup : (u, HeaderLocation.mk d.path k) ∈ docEntries d :=
    dedupKeysFuel_first_mem _ _ le_rfl u _ hfind_raw
  have hmem_idx : (u, HeaderLocation.mk d.path k) ∈ buildIndex docs := by
    rw [buildIndex, List.mem_join]
    exact ⟨docEntries d, List.mem_map.mpr ⟨d, hd, rfl⟩, hmem_dedup⟩
  have hall : ∀ e ∈ buildIndex docs, e.1 = u → e = (u, HeaderLocation.mk d.path k) := by
    intro e he heu
    rw [buildIndex, List.mem_join] at he
    obtain ⟨l, hl, hel⟩ := he
    obtain ⟨d2, hd2, rfl⟩ := List.mem_map.mp hl
    have hraw : e ∈ rawEntries d2.path 1 d2.headings :=
      dedupKeysFuel_subset _ _ e hel
    have hdecl : declares d2 u = true := by
      obtain ⟨h2, hh2, hc2⟩ := rawEntries_mem d2.path d2.headings 1 e hraw
      rw [declares, List.any_eq_true]
      rw [heu] at hc2
      exact ⟨h2, hh2, hc2⟩
    have hd2d : d2 = d := huniq d2 hd2 hdecl
    subst hd2d
    have := dedupKeysFuel_key_eq _ _ le_rfl e hel u heu
    rw [docEntries] at hel
    rw [hfind_raw] at this
    exact (Option.some_inj.mp this).symm
  have hmem_rev : (u, HeaderLocation.mk d.path k) ∈ (buildIndex docs).reverse :=
    List.mem_reverse.mpr hmem_idx
  have hsome : ((buildIndex docs).reverse.find? (fun e => e.1 == u)).isSome := by
    rw [List.find?_isSome]
    exact ⟨_, hmem_rev, by simp⟩
  obtain ⟨e, hfind⟩ := Option.isSome_iff_exists.mp hsome
  have hemem : e ∈ buildIndex docs := List.mem_reverse.mp (List.mem_of_find?_eq_some hfind)
  have hekey : e.1 = u := by
    have := List.find?_some hfind
    simpa using this
  have he : e = (u, HeaderLocation.mk d.path k) := hall e hemem hekey
  rw [lookupId, hfind, he]
  rfl

/-- The document declaring the looked-up identifier on its second heading. -/
def lookupWitnessDoc : Document :=
  ⟨"subdir/doc2.org", [⟨[]⟩, ⟨["550e8400-e29b-41d4-a716-446655440002"]⟩], []⟩

/-- Another discovered document, declaring a different identifier. -/
def lookupOtherDoc : Document :=
  ⟨"doc1.org", [⟨["550e8400-e29b-41d4-a716-446655440001"]⟩], []⟩

/-- C2 witness: the lookup theorem evaluated on a concrete two-document
build, where the identifier sits on the second heading of a document in a
subdirectory. -/
theorem discovery_lookup_witness :
    lookupId (buildIndex [lookupOtherDoc, lookupWitnessDoc])
        "550e8400-e29b-41d4-a716-446655440002" =
      some (HeaderLocation.mk "subdir/doc2.org" 2) :=
  discovery_lookup [lookupOtherDoc, lookupWitnessDoc] lookupWitnessDoc
    "550e8400-e29b-41d4-a716-446655440002" 2
    (by decide) (by decide) (by decide) (by decide) (by decide) (by decide)

/-- Modelled from the spec: the segments of a slash-normalized relative
path. -/
def pathSegs (p : String) : List String :=
  (splitOnChar '/' p.toList).map (fun l => String.mk l)

/-- Modelled from the spec: the directory part of a path, as segments. -/
def dirSegs (p : String) : List String := (pathSegs p).dropLast

/-- The final segment (file name) of a path. -/
def fileNameOf (p : String) : String := (pathSegs p).getLastD ""

/-- Suffix-trimming on strings, written over the character lists so that it
evaluates inside the kernel. -/
def trimSuffixStr (s suf : String) : String :=
  if kwMatch suf.toList.reverse s.toList.reverse then
    String.mk (s.toList.take (s.toList.length - suf.toList.length))
  else s

/-- Modelled from the spec: rewrite one resolved identifier link (spec §4.3
step 3) — compute the relative path from the current document's directory to
the target document's directory by shared-prefix elimination and `..`
ascension for the non-shared components, substitute `.html` for the target's
extension, and append the `#headline-{headingOrdinal}` anchor from the
resolved `HeaderLocation`.  The revision of generator/phase2.go holding this
logic (the `uuidReplacingWriter`) is not part of the source tree; only its
end-to-end tests and ARCHITECTURE.md describe it. -/
def resolveTarget (cur tgt : String) (k : Nat) : String :=
  let bt := stripCommon (dirSegs cur) (dirSegs tgt)
  let segs := List.replicate bt.1.length ".." ++ bt.2 ++
    [trimSuffixStr (fileNameOf tgt) ".org" ++ ".html"]
  String.intercalate "/" segs ++ "#headline-" ++ Nat.repr k

/-- Modelled from the spec: the hyperlinks a rendered document's output
contains for its identifier-scheme links — each link whose identifier
resolves in the index becomes an `href` to the computed relative
file-plus-anchor target; unresolved identifiers yield no hyperlink. -/
def outputHrefs (idx : List (String × HeaderLocation)) (d : Document) : List String :=
  d.links.filterMap (fun u =>
    (lookupId idx u).map
      (fun loc => "href=\"" ++ resolveTarget d.path loc.filePath loc.headerIndex ++ "\""))

theorem outputHrefs_mem (idx : List (String × HeaderLocation)) (d : Document)
    (u : String) (loc : HeaderLocation) (hu : u ∈ d.links)
    (hlook : lookupId idx u = some loc) :
    ("href=\"" ++ resolveTarget d.path loc.filePath loc.headerIndex ++ "\"") ∈
      outputHrefs idx d := by
  rw [outputHrefs, List.mem_filterMap]
  exact ⟨u, hu, by rw [hlook]; rfl⟩

example : resolveTarget "a.org" "sub/b.org" 1 = "sub/b.html#headline-1" := by decide
example : resolveTarget "sub/b.org" "a.org" 1 = "../a.html#headline-1" := by decide
example : resolveTarget "level1b/deep/nested.org" "root.org" 1 =
    "../../root.html#headline-1" := by decide
example : resolveTarget "level1a/file1.org" "level1b/file2.org" 1 =
    "../level1b/file2.html#headline-1" := by decide

/-- C1: for documents A at `a.org` and B at `sub/b.org` whose first headings
declare distinct valid identifiers, where A links to B's identifier and B
links back to A's, rendering produces output for A containing
`href="sub/b.html#headline-1"` and output for B containing
`href="../a.html#headline-1"`; in general every resolved link's rewritten
target is `resolveTarget` — the relative path from the current document's
directory to the target's with the extension replaced by `.html`, plus the
`#headline-{headingOrdinal}` anchor of the resolved `HeaderLocation`. -/
theorem roundTrip_hrefs (uA uB : String)
    (hA : isValidUUIDStr uA = true) (hB : isValidUUIDStr uB = true) (hne : uA ≠ uB) :
    (∀ (idx : List (String × HeaderLocation)) (d : Document) (u : String)
        (loc : HeaderLocation), u ∈ d.links → lookupId idx u = some loc →
        ("href=\"" ++ resolveTarget d.path loc.filePath loc.headerIndex ++ "\"") ∈
          outputHrefs idx d) ∧
    "href=\"sub/b.html#headline-1\"" ∈
      outputHrefs
        (buildIndex [Document.mk "a.org" [Heading.mk [uA]] [uB],
          Document.mk "sub/b.org" [Heading.mk [uB]] [uA]])
        (Document.mk "a.org" [Heading.mk [uA]] [uB]) ∧
    "href=\"../a.html#headline-1\"" ∈
      outputHrefs
        (buildIndex [Document.mk "a.org" [Heading.mk [uA]] [uB],
          Document.mk "sub/b.org" [Heading.mk [uB]] [uA]])
        (Document.mk "sub/b.org" [Heading.mk [uB]] [uA]) := by
  have hEntA : docEntries (Document.mk "a.org" [Heading.mk [uA]] [uB]) =
      [(uA, HeaderLocation.mk "a.org" 1)] := by
    simp [docEntries, rawEntries, dedupKeys, dedupKeysFuel, List.filter, hA]
  have hEntB : docEntries (Document.mk "sub/b.org" [Heading.mk [uB]] [uA]) =
      [(uB, HeaderLocation.mk "sub/b.org" 1)] := by
    simp [docEntries, rawEntries, dedupKeys, dedupKeysFuel, List.filter, hB]
  have hIdx : buildIndex [Document.mk "a.org" [Heading.mk [uA]] [uB],
      Document.mk "sub/b.org" [Heading.mk [uB]] [uA]] =
      [(uA, HeaderLocation.mk "a.org" 1), (uB, HeaderLocation.mk "sub/b.org" 1)] := by
    simp [buildIndex, hEntA, hEntB]
  have hlookB : lookupId (buildIndex [Document.mk "a.org" [Heading.mk [uA]] [uB],
      Document.mk "sub/b.org" [Heading.mk [uB]] [uA]]) uB =
      some (HeaderLocation.mk "sub/b.org" 1) := by
    rw [lookupId, hIdx]
    rw [show [(uA, HeaderLocation.mk "a.org" 1),
      (uB, HeaderLocation.mk "sub/b.org" 1)].reverse =
      [(uB, HeaderLocation.mk "sub/b.org" 1), (uA, HeaderLocation.mk "a.org" 1)] from by simp]
    rw [List.find?_cons_of_pos _ (by simp)]
    rfl
  have hlookA : lookupId (buildIndex [Document.mk "a.org" [Heading.mk [uA]] [uB],
      Document.mk "sub/b.org" [Heading.mk [uB]] [uA]]) uA =
      some (HeaderLocation.mk "a.org" 1) := by
    rw [lookupId, hIdx]
    rw [show [(uA, HeaderLocation.mk "a.org" 1),
      (uB, HeaderLocation.mk "sub/b.org" 1)].reverse =
      [(uB, HeaderLocation.mk "sub/b.org" 1), (uA, HeaderLocation.mk "a.org" 1)] from by simp]
    rw [List.find?_cons_of_neg _ (by simp; exact fun hcon => hne hcon.symm)]
    rw [List.find?_cons_of_pos _ (by simp)]
    rfl
  refine ⟨outputHrefs_mem, ?_, ?_⟩
  · have hmem := outputHrefs_mem _ (Document.mk "a.org" [Heading.mk [uA]] [uB]) uB
      (HeaderLocation.mk "sub/b.org" 1) (by simp) hlookB
    rwa [show ("href=\"" ++ resolveTarget "a.org" "sub/b.org" 1 ++ "\"") =
      "href=\"sub/b.html#headline-1\"" from by decide] at hmem
  · have hmem := outputHrefs_mem _ (Document.mk "sub/b.org" [Heading.mk [uB]] [uA]) uA
      (HeaderLocation.mk "a.org" 1) (by simp) hlookA
    rwa [show ("href=\"" ++ resolveTarget "sub/b.org" "a.org" 1 ++ "\"") =
      "href=\"../a.html#headline-1\"" from by decide] at hmem

/-- C1 witness: the round-trip theorem evaluated at the all-zero and all-f
identifiers. -/
theorem roundTrip_hrefs_witness :
    (∀ (idx : List (String × HeaderLocation)) (d : Document) (u : String)
        (loc : HeaderLocation), u ∈ d.links → lookupId idx u = some loc →
        ("href=\"" ++ resolveTarget d.path loc.filePath loc.headerIndex ++ "\"") ∈
          outputHrefs idx d) ∧
    "href=\"sub/b.html#headline-1\"" ∈
      outputHrefs
        (buildIndex [Document.mk "a.org"
            [Heading.mk ["00000000-0000-0000-0000-000000000000"]]
            ["ffffffff-ffff-ffff-ffff-ffffffffffff"],
          Document.mk "sub/b.org"
            [Heading.mk ["ffffffff-ffff-ffff-ffff-ffffffffffff"]]
            ["00000000-0000-0000-0000-000000000000"]])
        (Document.mk "a.org" [Heading.mk ["00000000-0000-0000-0000-000000000000"]]
          ["ffffffff-ffff-ffff-ffff-ffffffffffff"]) ∧
    "href=\"../a.html#headline-1\"" ∈
      outputHrefs
        (buildIndex [Document.mk "a.org"
            [Heading.mk ["00000000-0000-0000-0000-000000000000"]]
            ["ffffffff-ffff-ffff-ffff-ffffffffffff"],
          Document.mk "sub/b.org"
            [Heading.mk ["ffffffff-ffff-ffff-ffff-ffffffffffff"]]
            ["00000000-0000-0000-0000-000000000000"]])
        (Document.mk "sub/b.org"
          [Heading.mk ["ffffffff-ffff-ffff-ffff-ffffffffffff"]]
          ["00000000-0000-0000-0000-000000000000"]) :=
  roundTrip_hrefs "00000000-0000-0000-0000-000000000000"
    "ffffffff-ffff-ffff-ffff-ffffffffffff" (by decide) (by decide) (by decide)

end Oxen
